import Mathlib

/-!
A verification development for the medical data processing repository.
Strings are modelled as lists of characters; the regular-expression
fragments used by the source (literal case-insensitive substitution,
word-boundary bounded literal substitution, whitespace and punctuation
normalisation) are modelled as executable scanners.  Confidences are
modelled as rationals.
-/

set_option maxRecDepth 4000

abbrev Str := List Char

/-- Python regex whitespace class, ASCII range. -/
def isSpc (c : Char) : Bool :=
  c == ' ' || c == '\t' || c == '\n' || c == '\r' || c == '\x0b' || c == '\x0c'

def isAl (c : Char) : Bool := c.isAlpha

def isUpA (c : Char) : Bool := 'A' ≤ c && c ≤ 'Z'

def isLoA (c : Char) : Bool := 'a' ≤ c && c ≤ 'z'

/-- Python regex word-character class, ASCII range. -/
def isWordC (c : Char) : Bool := c.isAlphanum || c == '_'

def lowerL (s : Str) : Str := s.map Char.toLower

def upperL (s : Str) : Str := s.map Char.toUpper

/-- Python str.strip for ASCII whitespace. -/
def stripL (s : Str) : Str :=
  ((s.dropWhile isSpc).reverse.dropWhile isSpc).reverse

/-- Boolean prefix test on character lists. -/
def startsL : Str → Str → Bool
  | [], _ => true
  | _ :: _, [] => false
  | a :: as, b :: bs => a == b && startsL as bs

/-- Case-insensitive prefix test. -/
def startsCI (p s : Str) : Bool := startsL (lowerL p) (lowerL s)

/-- Boolean substring test: Python `p in s`. -/
def containsL : Str → Str → Bool
  | p, [] => p == []
  | p, c :: rest => startsL p (c :: rest) || containsL p rest

/-- Python str.endswith. -/
def endsL (suf s : Str) : Bool :=
  decide (suf.length ≤ s.length) && (s.drop (s.length - suf.length) == suf)

/-- Fuel-driven scanner for re.sub of an escaped literal pattern with
IGNORECASE: replaces every non-overlapping leftmost occurrence. -/
def replCIF : Nat → Str → Str → Str → Str
  | 0, _, _, s => s
  | _ + 1, _, _, [] => []
  | n + 1, pat, rep, c :: rest =>
    if pat ≠ [] && startsCI pat (c :: rest) then
      rep ++ replCIF n pat rep ((c :: rest).drop pat.length)
    else c :: replCIF n pat rep rest

def replCI (pat rep s : Str) : Str := replCIF s.length pat rep s

def isWordO : Option Char → Bool
  | none => false
  | some c => isWordC c

/-- A word boundary sits between a word character and a non-word
character (string edges count as non-word). -/
def bdry (l r : Option Char) : Bool := isWordO l != isWordO r

/-- Match of the pattern (backslash b)(literal)(backslash b) at the head
of s, with IGNORECASE, given the character preceding s. -/
def wbAt (k : Str) (prev : Option Char) (s : Str) : Bool :=
  k ≠ [] && startsCI k s && bdry prev k.head? && bdry k.getLast? (s.drop k.length).head?

def wbSearchF : Nat → Str → Option Char → Str → Bool
  | 0, _, _, _ => false
  | n + 1, k, prev, s =>
    wbAt k prev s ||
      (match s with
       | [] => false
       | c :: rest => wbSearchF n k (some c) rest)

/-- re.search of a word-boundary bounded literal with IGNORECASE. -/
def wbSearch (k s : Str) : Bool := wbSearchF (s.length + 1) k none s

def wbReplF : Nat → Str → Str → Option Char → Str → Str
  | 0, _, _, _, s => s
  | n + 1, k, rep, prev, s =>
    if wbAt k prev s then
      rep ++ wbReplF n k rep (s.take k.length).getLast? (s.drop k.length)
    else
      match s with
      | [] => []
      | c :: rest => c :: wbReplF n k rep (some c) rest

/-- re.sub of a word-boundary bounded literal with IGNORECASE. -/
def wbRepl (k rep s : Str) : Str := wbReplF (s.length + 1) k rep none s

/-- re.sub of one-or-more whitespace with a single space. -/
def collapseF : Nat → Str → Str
  | 0, s => s
  | _ + 1, [] => []
  | n + 1, c :: rest =>
    if isSpc c then ' ' :: collapseF n (rest.dropWhile isSpc)
    else c :: collapseF n rest

def collapseWS (s : Str) : Str := collapseF s.length s

def spacesThen (p : Char) (s : Str) : Bool :=
  match s.dropWhile isSpc with
  | [] => false
  | c :: _ => c == p

/-- re.sub of (whitespace*)(p)(whitespace*) with "p " for a punctuation
character p. -/
def fixPunctF : Nat → Char → Str → Str
  | 0, _, s => s
  | n + 1, p, s =>
    match s with
    | [] => []
    | c :: rest =>
      if spacesThen p (c :: rest) then
        let r1 := (c :: rest).dropWhile isSpc
        p :: ' ' :: fixPunctF n p ((r1.drop 1).dropWhile isSpc)
      else c :: fixPunctF n p rest

def fixPunct (p : Char) (s : Str) : Str := fixPunctF s.length p s

def isCS (c : Char) : Bool := c == ',' || c == ';'

/-- re.sub of a run of two or more comma/semicolon characters with a
single comma. -/
def punctRunF : Nat → Str → Str
  | 0, s => s
  | _ + 1, [] => []
  | n + 1, c :: rest =>
    if isCS c && (match rest.head? with | some d => isCS d | none => false) then
      ',' :: punctRunF n (rest.dropWhile isCS)
    else c :: punctRunF n rest

def punctRun (s : Str) : Str := punctRunF s.length s

/-- re.sub removing a trailing comma/semicolon followed by trailing
whitespace, anchored at the end of the string. -/
def dropTrailPunctSp (s : Str) : Str :=
  match s.reverse.dropWhile isSpc with
  | c :: rest => if isCS c then rest.reverse else s
  | [] => s

/-- re.sub removing a trailing run of comma/semicolon characters. -/
def dropTrailPunct (s : Str) : Str :=
  (s.reverse.dropWhile isCS).reverse

/-- Python str.title. -/
def titleF : Bool → Str → Str
  | _, [] => []
  | prev, c :: rest =>
    if isAl c then (if prev then c.toLower else c.toUpper) :: titleF true rest
    else c :: titleF false rest

def titleL (s : Str) : Str := titleF false s

/-- Python str.islower. -/
def islowerL (s : Str) : Bool := s.any isAl && !(s.any isUpA)

/-- Python str.isupper. -/
def isupperL (s : Str) : Bool := s.any isAl && !(s.any isLoA)

def istitleF : Bool → Bool → Str → Bool
  | _, seen, [] => seen
  | prev, seen, c :: rest =>
    if isUpA c then !prev && istitleF true true rest
    else if isLoA c then prev && istitleF true true rest
    else istitleF false seen rest

/-- Python str.istitle. -/
def istitleL (s : Str) : Bool := istitleF false false s

/-- Python str.split with no separator: whitespace-delimited words. -/
def wordsF : Nat → Str → List Str
  | 0, _ => []
  | n + 1, s =>
    match s.dropWhile isSpc with
    | [] => []
    | c :: rest =>
      (c :: rest).takeWhile (fun d => !isSpc d) ::
        wordsF n ((c :: rest).dropWhile (fun d => !isSpc d))

def wordsL (s : Str) : List Str := wordsF s.length s

def joinSp : List Str → Str
  | [] => []
  | [w] => w
  | w :: ws => w ++ ' ' :: joinSp ws

/-!
Confidence scorer, base-processor normalisation and the rule tables of
the three column processors, translated from
src/column_processors/base_processor.py, test_processor.py,
biomarker_processor.py and diagnosis_processor.py.
-/

/-- Base-processor text normalisation: strip, collapse whitespace, then
fix spacing around comma, semicolon and colon. -/
def normalizeText (s : Str) : Str :=
  let t := collapseWS (stripL s)
  let t := fixPunct ',' t
  let t := fixPunct ';' t
  fixPunct ':' t

def highTransforms : List String := ["normalize_text", "fix_spacing", "standardize_case"]

def mediumTransforms : List String := ["fix_spelling", "expand_abbreviation"]

def lowTransforms : List String := ["api_correction", "complex_parsing"]

/-- One step of the bucketed adjustment loop of the confidence scorer. -/
def confStep (a : ℚ) (t : String) : ℚ :=
  if t ∈ highTransforms then a + 1/10
  else if t ∈ mediumTransforms then a
  else if t ∈ lowTransforms then a - 1/5
  else a

/-- Bucketed adjustment of the confidence scorer. -/
def confAdj (tags : List String) : ℚ :=
  tags.foldl confStep 0

/-- The confidence scorer of the base processor; a null value is
modelled as none. -/
def calculateConfidence (original cleaned : Option Str) (tags : List String) : ℚ :=
  match original, cleaned with
  | none, none => 1
  | o, c =>
    if o = c then 1
    else max (1/10) (min 1 (max (1/2) (1 - (tags.length : ℚ) / 10) + confAdj tags))

/-- Running pipeline state of a clean call: current value, fired
transformation tags, recorded issues. -/
structure PSt where
  cv : Str
  tags : List String
  iss : List Str
deriving DecidableEq

/-- Step shared by all processors: normalize and tag when changed. -/
def stNorm (st : PSt) : PSt :=
  let n := normalizeText st.cv
  if n ≠ st.cv then { cv := n, tags := st.tags ++ ["normalize_text"], iss := st.iss }
  else st

def issOf (ipre : Option String) (k : String) : List Str :=
  match ipre with
  | none => []
  | some pre => [pre.toList ++ k.toList]

/-- Correction-table pass that rechecks the current value for each
entry and replaces case-insensitive substrings (diagnosis spelling
pass). -/
def tabCI (tag : String) (ipre : Option String) (tbl : List (String × String)) (st : PSt) : PSt :=
  tbl.foldl
    (fun st p =>
      if containsL p.1.toList (lowerL st.cv) then
        { cv := replCI p.1.toList p.2.toList st.cv
          tags := st.tags ++ [tag]
          iss := st.iss ++ issOf ipre p.1 }
      else st) st

/-- Correction-table pass whose hit test uses the lowercased value as
it was before the pass started (test and biomarker spelling passes). -/
def tabStale (tag : String) (ipre : Option String) (tbl : List (String × String)) (st : PSt) : PSt :=
  let cl := lowerL st.cv
  tbl.foldl
    (fun st p =>
      if containsL p.1.toList cl then
        { cv := replCI p.1.toList p.2.toList st.cv
          tags := st.tags ++ [tag]
          iss := st.iss ++ issOf ipre p.1 }
      else st) st

/-- Correction-table pass with word-boundary bounded patterns. -/
def tabWB (tag : String) (ipre : Option String) (tbl : List (String × String)) (st : PSt) : PSt :=
  tbl.foldl
    (fun st p =>
      if wbSearch p.1.toList st.cv then
        { cv := wbRepl p.1.toList p.2.toList st.cv
          tags := st.tags ++ [tag]
          iss := st.iss ++ issOf ipre p.1 }
      else st) st

def lookupA (tbl : List (String × String)) (u : Str) : Option String :=
  (tbl.find? (fun p => p.1.toList == u)).map (fun p => p.2)

/-- Result of cleaning one value; the metadata notes of the source are
informational strings and are not modelled. -/
structure CleanRes where
  original : Option Str
  cleaned : Option Str
  confidence : ℚ
  transformations : List String
  issues : List Str
deriving DecidableEq

/-! Test-name processor tables. -/

def testMappings : List (String × String) :=
  [("cbc", "Complete Blood Count"), ("complete blood count", "Complete Blood Count"),
   ("fbc", "Full Blood Count"), ("full blood count", "Full Blood Count"),
   ("hemogram", "Complete Blood Count"), ("blood count", "Complete Blood Count"),
   ("bmp", "Basic Metabolic Panel"), ("cmp", "Comprehensive Metabolic Panel"),
   ("lft", "Liver Function Test"), ("liver function", "Liver Function Test"),
   ("rft", "Renal Function Test"), ("kidney function", "Renal Function Test"),
   ("lipid profile", "Lipid Panel"), ("lipid panel", "Lipid Panel"),
   ("ecg", "Electrocardiogram"), ("ekg", "Electrocardiogram"),
   ("echo", "Echocardiogram"), ("stress test", "Cardiac Stress Test"),
   ("tmt", "Treadmill Test"),
   ("ct scan", "CT Scan"), ("mri", "MRI Scan"), ("x-ray", "X-Ray"),
   ("xray", "X-Ray"), ("ultrasound", "Ultrasound"), ("usg", "Ultrasound"),
   ("thyroid function", "Thyroid Function Test"), ("tft", "Thyroid Function Test"),
   ("hba1c", "HbA1c"), ("glucose", "Blood Glucose"), ("sugar", "Blood Glucose")]

def testSpell : List (String × String) :=
  [("compelte", "complete"), ("blod", "blood"), ("coutn", "count"),
   ("functin", "function"), ("functon", "function"), ("tset", "test"),
   ("pnarl", "panel"), ("panle", "panel"), ("scna", "scan"),
   ("echocardiogrm", "echocardiogram"), ("electrocardigrm", "electrocardiogram")]

def testSuffixes : List String :=
  ["_lab", "_hospital", "_clinic", "_center", "_centre",
   "_test", "_investigation", "_exam", "_study"]

/-- Source-suffix removal: first matching suffix only. -/
def remSuffix : List String → PSt → PSt
  | [], st => st
  | suf :: rest, st =>
    if endsL suf.toList (lowerL st.cv) then
      { cv := stripL (st.cv.take (st.cv.length - suf.length))
        tags := st.tags ++ ["remove_source_suffix"]
        iss := st.iss ++ ["removed_suffix_".toList ++ suf.toList] }
    else remSuffix rest st

/-- String pipeline of the test processor for a non-null value. -/
def testPipe (s : Str) : PSt :=
  let st := stNorm { cv := s, tags := [], iss := [] }
  let st := remSuffix testSuffixes st
  let st := tabStale "fix_spelling" (some "spelling_error_") testSpell st
  match lookupA testMappings (stripL (lowerL st.cv)) with
  | some std =>
    { cv := std.toList
      tags := st.tags ++ ["standardize_test_name"]
      iss := st.iss ++ ["expanded_abbreviation".toList] }
  | none => st

def testCleanValue (v : Option Str) : CleanRes :=
  match v with
  | none => ⟨none, none, 1, [], ["null_or_empty".toList]⟩
  | some s =>
    if s = [] then ⟨some s, some s, 1, [], ["null_or_empty".toList]⟩
    else
      let st := testPipe s
      let cf := stripL st.cv
      ⟨some s, some cf, calculateConfidence (some s) (some cf) st.tags, st.tags, st.iss⟩

/-! Biomarker processor tables. -/

def bioMappings : List (String × String) :=
  [("hb", "Hemoglobin"), ("hgb", "Hemoglobin"), ("hemoglobin", "Hemoglobin"),
   ("hct", "Hematocrit"), ("hematocrit", "Hematocrit"),
   ("wbc", "White Blood Cell Count"), ("rbc", "Red Blood Cell Count"),
   ("plt", "Platelet Count"), ("platelets", "Platelet Count"),
   ("mcv", "Mean Corpuscular Volume"), ("mch", "Mean Corpuscular Hemoglobin"),
   ("mchc", "Mean Corpuscular Hemoglobin Concentration"),
   ("glu", "Glucose"), ("glucose", "Glucose"), ("sugar", "Glucose"),
   ("bun", "Blood Urea Nitrogen"), ("creatinine", "Creatinine"),
   ("crea", "Creatinine"), ("cr", "Creatinine"), ("urea", "Blood Urea Nitrogen"),
   ("na", "Sodium"), ("sodium", "Sodium"), ("k", "Potassium"),
   ("potassium", "Potassium"), ("cl", "Chloride"), ("chloride", "Chloride"),
   ("co2", "Carbon Dioxide"), ("hco3", "Bicarbonate"), ("bicarbonate", "Bicarbonate"),
   ("alt", "Alanine Aminotransferase"), ("ast", "Aspartate Aminotransferase"),
   ("alp", "Alkaline Phosphatase"), ("alkphos", "Alkaline Phosphatase"),
   ("bilirubin", "Total Bilirubin"), ("bili", "Total Bilirubin"),
   ("albumin", "Albumin"), ("alb", "Albumin"), ("protein", "Total Protein"),
   ("chol", "Total Cholesterol"), ("cholesterol", "Total Cholesterol"),
   ("hdl", "HDL Cholesterol"), ("ldl", "LDL Cholesterol"),
   ("trig", "Triglycerides"), ("triglycerides", "Triglycerides"),
   ("troponin", "Troponin"), ("trop", "Troponin"), ("ck", "Creatine Kinase"),
   ("ckmb", "CK-MB"), ("bnp", "B-type Natriuretic Peptide"), ("ntprobnp", "NT-proBNP"),
   ("tsh", "Thyroid Stimulating Hormone"), ("t3", "Triiodothyronine"),
   ("t4", "Thyroxine"), ("ft3", "Free T3"), ("ft4", "Free T4"),
   ("hba1c", "Hemoglobin A1c"), ("a1c", "Hemoglobin A1c"),
   ("insulin", "Insulin"), ("c-peptide", "C-Peptide"),
   ("esr", "Erythrocyte Sedimentation Rate"), ("crp", "C-Reactive Protein"),
   ("sed rate", "Erythrocyte Sedimentation Rate"),
   ("vit d", "Vitamin D"), ("vitamin d", "Vitamin D"),
   ("vit b12", "Vitamin B12"), ("b12", "Vitamin B12"),
   ("folate", "Folate"), ("folic acid", "Folate")]

def bioSpell : List (String × String) :=
  [("hemoglobine", "hemoglobin"), ("creatinin", "creatinine"),
   ("createnine", "creatinine"), ("glucos", "glucose"),
   ("cholestrol", "cholesterol"), ("triglicerides", "triglycerides"),
   ("billirubin", "bilirubin"), ("albumen", "albumin"),
   ("sodiums", "sodium"), ("potasium", "potassium"), ("cloride", "chloride")]

def bioUnits : List String :=
  ["mg/dl", "mg/dL", "mmol/L", "g/dl", "g/dL", "mEq/L", "ng/ml",
   "pg/ml", "IU/L", "U/L", "mU/L", "ng/dL", "ug/dl", "mcg/dl",
   "%", "ratio", "index", "/hpf", "/lpf", "cells/ul"]

/-- Unit-removal pass of the biomarker processor: case-insensitive
substring hit, substitution with the empty string, then strip. -/
def tabUnits (tbl : List String) (st : PSt) : PSt :=
  tbl.foldl
    (fun st u =>
      if containsL (lowerL u.toList) (lowerL st.cv) then
        { cv := stripL (replCI u.toList [] st.cv)
          tags := st.tags ++ ["remove_unit"]
          iss := st.iss ++ ["removed_unit_".toList ++ u.toList] }
      else st) st

/-- Steps 1 to 3 of the biomarker clean pipeline applied to the
stripped input. -/
def bioStep123 (cv0 : Str) : PSt :=
  let st := stNorm { cv := cv0, tags := [], iss := [] }
  let st := tabUnits bioUnits st
  tabStale "fix_spelling" (some "spelling_error_") bioSpell st

/-- Partial-match loop of biomarker step 4: first table entry whose key
is a substring of length at least three and equals the value or starts
it followed by a space. -/
def bioPartialScan : List (String × String) → Str → Option String
  | [], _ => none
  | p :: rest, u =>
    if containsL p.1.toList u && decide (3 ≤ p.1.length) &&
        (u == p.1.toList || startsL (p.1.toList ++ [' ']) u) then
      some p.2
    else bioPartialScan rest u

def bioStep4 (st : PSt) : PSt :=
  let u := stripL (lowerL st.cv)
  match lookupA bioMappings u with
  | some std =>
    { cv := std.toList
      tags := st.tags ++ ["standardize_biomarker"]
      iss := st.iss ++ ["expanded_abbreviation".toList] }
  | none =>
    match bioPartialScan bioMappings u with
    | some f =>
      { cv := f.toList
        tags := st.tags ++ ["standardize_biomarker_partial"]
        iss := st.iss ++ ["expanded_abbreviation_partial".toList] }
    | none => st

def bioStep5 (st : PSt) : PSt :=
  if islowerL st.cv && decide (2 < st.cv.length) then
    { cv := titleL st.cv
      tags := st.tags ++ ["fix_capitalization"]
      iss := st.iss ++ ["case_inconsistency".toList] }
  else st

def biomarkerCleanValue (v : Option Str) : CleanRes :=
  match v with
  | none => ⟨none, none, 1, [], ["null_or_empty".toList]⟩
  | some s =>
    if s = [] then ⟨some s, some s, 1, [], ["null_or_empty".toList]⟩
    else
      let st := bioStep5 (bioStep4 (bioStep123 (stripL s)))
      let cf := stripL st.cv
      ⟨some s, some cf, calculateConfidence (some s) (some cf) st.tags, st.tags, st.iss⟩

/-! Diagnosis processor tables. -/

def diagCond : List (String × String) :=
  [("htn", "Hypertension"), ("hypertention", "Hypertension"),
   ("high bp", "Hypertension"), ("high blood pressure", "Hypertension"),
   ("mi", "Myocardial Infarction"), ("heart attack", "Myocardial Infarction"),
   ("cad", "Coronary Artery Disease"), ("chf", "Congestive Heart Failure"),
   ("heart failure", "Congestive Heart Failure"), ("afib", "Atrial Fibrillation"),
   ("a fib", "Atrial Fibrillation"), ("dvt", "Deep Vein Thrombosis"),
   ("pe", "Pulmonary Embolism"),
   ("dm", "Diabetes Mellitus"), ("dm2", "Diabetes Mellitus Type 2"),
   ("diabetes", "Diabetes Mellitus"), ("diabetis", "Diabetes Mellitus"),
   ("diabetic", "Diabetes Mellitus"), ("iddm", "Insulin Dependent Diabetes Mellitus"),
   ("niddm", "Non-Insulin Dependent Diabetes Mellitus"),
   ("hypothyroid", "Hypothyroidism"), ("hyperthyroid", "Hyperthyroidism"),
   ("copd", "Chronic Obstructive Pulmonary Disease"), ("asthma", "Asthma"),
   ("asthama", "Asthma"), ("pneumonia", "Pneumonia"), ("pneumnia", "Pneumonia"),
   ("bronchitis", "Bronchitis"), ("bronchitus", "Bronchitis"),
   ("tb", "Tuberculosis"), ("urti", "Upper Respiratory Tract Infection"),
   ("uri", "Upper Respiratory Tract Infection"),
   ("gerd", "Gastroesophageal Reflux Disease"),
   ("acid reflux", "Gastroesophageal Reflux Disease"),
   ("ibs", "Irritable Bowel Syndrome"), ("ibd", "Inflammatory Bowel Disease"),
   ("gastritis", "Gastritis"), ("peptic ulcer", "Peptic Ulcer Disease"),
   ("ckd", "Chronic Kidney Disease"), ("kidney disease", "Chronic Kidney Disease"),
   ("renal failure", "Renal Failure"), ("kidney failure", "Renal Failure"),
   ("uti", "Urinary Tract Infection"),
   ("cva", "Cerebrovascular Accident"), ("stroke", "Cerebrovascular Accident"),
   ("tia", "Transient Ischemic Attack"), ("seizure", "Seizure Disorder"),
   ("epilepsy", "Epilepsy"), ("migraine", "Migraine"), ("headache", "Headache"),
   ("depression", "Depression"), ("anxiety", "Anxiety Disorder"),
   ("ptsd", "Post-Traumatic Stress Disorder"), ("bipolar", "Bipolar Disorder"),
   ("oa", "Osteoarthritis"), ("osteoarthritis", "Osteoarthritis"),
   ("ra", "Rheumatoid Arthritis"), ("rheumatoid arthritis", "Rheumatoid Arthritis"),
   ("back pain", "Back Pain"), ("joint pain", "Arthralgia"),
   ("covid", "COVID-19"), ("covid-19", "COVID-19"), ("sars-cov-2", "COVID-19"),
   ("flu", "Influenza"), ("influenza", "Influenza")]

def diagAbbrev : List (String × String) :=
  [("w/", "with"), ("w/o", "without"), ("r/o", "rule out"),
   ("h/o", "history of"), ("f/u", "follow up"), ("c/o", "complains of"),
   ("s/p", "status post"), ("d/c", "discontinue"), ("prn", "as needed"),
   ("bid", "twice daily"), ("tid", "three times daily"),
   ("qid", "four times daily"), ("qod", "every other day"),
   ("hs", "at bedtime"), ("ac", "before meals"), ("pc", "after meals")]

def diagSpell : List (String × String) :=
  [("diabetis", "diabetes"), ("hypertention", "hypertension"),
   ("asthama", "asthma"), ("bronchitus", "bronchitis"),
   ("pneumnia", "pneumonia"), ("infaction", "infarction"),
   ("arthritus", "arthritis"), ("gastritus", "gastritis"),
   ("migrene", "migraine"), ("anxeity", "anxiety"),
   ("depresion", "depression"), ("hipothyroid", "hypothyroid"),
   ("hypotension", "hypotension"), ("cronary", "coronary"),
   ("pulmonery", "pulmonary"), ("cerebal", "cerebral"),
   ("cardio", "cardiac")]

def diagSev : List (String × String) :=
  [("mild", "Mild"), ("moderate", "Moderate"), ("severe", "Severe"),
   ("acute", "Acute"), ("chronic", "Chronic"), ("stable", "Stable"),
   ("unstable", "Unstable"), ("controlled", "Controlled"),
   ("uncontrolled", "Uncontrolled")]

def diagPlaceholders : List String := ["na", "n/a", "nil", "none", "?", "unknown"]

/-- Diagnosis step 6: punctuation and spacing cleanup, tagging when the
value now differs from the stripped input. -/
def diagPunctStage (orig0 : Str) (st : PSt) : PSt :=
  let v := punctRun st.cv
  let v := fixPunct ',' v
  let v := fixPunct ';' v
  let v := dropTrailPunctSp v
  if v ≠ orig0 then { cv := v, tags := st.tags ++ ["fix_punctuation"], iss := st.iss }
  else { cv := v, tags := st.tags, iss := st.iss }

/-- String pipeline of the diagnosis processor for a stripped
non-placeholder value. -/
def diagPipe (cv0 : Str) : PSt :=
  let st := stNorm { cv := cv0, tags := [], iss := [] }
  let st := tabCI "fix_medical_spelling" (some "medical_spelling_error_") diagSpell st
  let st := tabWB "expand_clinical_abbreviation" (some "clinical_abbreviation_") diagAbbrev st
  let st := tabWB "standardize_medical_condition" (some "medical_condition_standardized_") diagCond st
  let st := tabWB "standardize_severity" none diagSev st
  diagPunctStage cv0 st

def diagnosisCleanValue (v : Option Str) : CleanRes :=
  match v with
  | none => ⟨none, none, 1, [], ["null_or_empty".toList]⟩
  | some s =>
    if s = [] then ⟨some s, some s, 1, [], ["null_or_empty".toList]⟩
    else
      let cv0 := stripL s
      if lowerL cv0 ∈ diagPlaceholders.map String.toList then
        ⟨some s, some cv0, 3/10, [], ["placeholder_value".toList]⟩
      else
        let st := diagPipe cv0
        let cf := stripL st.cv
        let conf := calculateConfidence (some s) (some cf) st.tags
        let conf := if cf.length < 5 then conf * (7/10) else conf
        ⟨some s, some cf, conf, st.tags, st.iss⟩

/-- The three column-processor variants of the repository. -/
inductive ProcVariant
  | test
  | biomarker
  | diagnosis

def cleanValueOf : ProcVariant → Option Str → CleanRes
  | .test => testCleanValue
  | .biomarker => biomarkerCleanValue
  | .diagnosis => diagnosisCleanValue

/-!
Cleaning-strategy agent and the per-value pipeline of main.py,
translated from src/agents/cleaning_strategy.py and
src/main.py (process single value).
-/

structure CleaningAction where
  actionType : String
  original : Str
  cleaned : Str
  confidence : ℚ
  methodUsed : String
deriving DecidableEq

/-- Formatting strategy: collapse whitespace, strip, fix spacing around
comma, period and semicolon, drop trailing comma/semicolon runs;
confidence 0.95 when the text changed, else 1. -/
def fixFormattingIssues (text : Str) : CleaningAction :=
  if stripL text = [] then ⟨"formatting", text, text, 1, "no_change"⟩
  else
    let cleaned := stripL (collapseWS text)
    let cleaned := fixPunct ',' cleaned
    let cleaned := fixPunct '.' cleaned
    let cleaned := fixPunct ';' cleaned
    let cleaned := dropTrailPunct cleaned
    ⟨"formatting", text, cleaned, if cleaned ≠ text then 19/20 else 1, "regex_formatting"⟩

def typoCorrections : List (String × String) :=
  [("diabetis", "diabetes"), ("hypertention", "hypertension"),
   ("infaction", "infarction"), ("pnemonia", "pneumonia"),
   ("asthama", "asthma"), ("bronchitus", "bronchitis"),
   ("arthritus", "arthritis"), ("apendix", "appendix"),
   ("rhumatism", "rheumatism"), ("stomache", "stomach"),
   ("kydney", "kidney"), ("hart", "heart"), ("brane", "brain")]

/-- Medical-typo strategy: lowercase the text, replace each known typo
on word boundaries, restore upper or title case when changes were made;
confidence 0.9 when at least one typo fired, else 1. -/
def fixMedicalTypos (text : Str) : CleaningAction :=
  if stripL text = [] then ⟨"medical_typo", text, text, 1, "no_change"⟩
  else
    let res := typoCorrections.foldl
      (fun (p : Str × Nat) t =>
        if wbSearch t.1.toList p.1 then (wbRepl t.1.toList t.2.toList p.1, p.2 + 1)
        else p)
      (lowerL text, 0)
    let cleaned :=
      if 0 < res.2 && isupperL text then upperL res.1
      else if 0 < res.2 && istitleL text then titleL res.1
      else res.1
    ⟨"medical_typo", text, cleaned, if 0 < res.2 then 9/10 else 1,
      "typo_correction_" ++ toString res.2 ++ "_changes"⟩

/-- Value and running confidence after step 2 of the per-value
pipeline: formatting result, then the typo pass, keeping the typo
confidence only when it is lower. -/
def pvAfter2 (value : Str) : Str × ℚ :=
  let a1 := fixFormattingIssues value
  let a2 := fixMedicalTypos a1.cleaned
  (a2.cleaned, if a2.confidence < a1.confidence then a2.confidence else a1.confidence)

/-- Value and running confidence after step 3: the medical-knowledge
standardization result replaces value and confidence only when its
confidence is strictly higher. -/
def pvAfter3 (med : Str → Str × ℚ) (value : Str) : Str × ℚ :=
  let st := pvAfter2 value
  let m := med st.1
  if st.2 < m.2 then (m.1, m.2) else (st.1, st.2)

/-- Step 4: the external call fires only when the running confidence is
below 0.7; a non-empty response differing from the value replaces it at
confidence 0.9; the boolean records whether the call fired. -/
def pvApi (apiF : Option (Str → Option Str)) (st : Str × ℚ) : Str × ℚ × Bool :=
  if st.2 < 7/10 then
    match apiF with
    | some f =>
      match f st.1 with
      | some r => if r ≠ [] && stripL r ≠ st.1 then (r, 9/10, true) else (st.1, st.2, false)
      | none => (st.1, st.2, false)
    | none => (st.1, st.2, false)
  else (st.1, st.2, false)

/-- The per-value multi-agent pipeline, parametrised by the
medical-knowledge agent and the optional external collaborator. -/
def processSingleValue (med : Str → Str × ℚ) (apiF : Option (Str → Option Str))
    (value : Option Str) : Option Str × ℚ :=
  match value with
  | none => (none, 1)
  | some s =>
    if stripL s = [] then (some s, 1)
    else
      let r := pvApi apiF (pvAfter3 med (stripL s))
      (some r.1, r.2.1)

/-!
Medical-knowledge agent, translated from src/agents/medical_knowledge.py.
The edit-similarity of difflib and the persistent cache are modelled as
explicit function parameters.
-/

def knownMedicalTerms : List String :=
  ["diabetes", "hypertension", "pneumonia", "asthma", "bronchitis",
   "myocardial infarction", "chronic obstructive pulmonary disease",
   "arthritis", "appendicitis", "gastritis", "nephritis", "hepatitis",
   "dermatitis", "sinusitis", "tonsillitis", "conjunctivitis"]

/-- Accumulator loop of the spell check: update the best match when the
similarity beats both the running maximum and 0.8. -/
def scAux (f : String → ℚ) : List String → Str × ℚ → Str × ℚ
  | [], acc => acc
  | v :: rest, acc =>
    scAux f rest (if acc.2 < f v && 4/5 < f v then (v.toList, f v) else acc)

def spellCheckMedicalTerm (sim : Str → Str → ℚ) (term : Str) : Str × ℚ :=
  scAux (fun v => sim (lowerL term) v.toList) knownMedicalTerms (term, 0)

/-- Running maximum of similarities over a vocabulary list. -/
def scMax (f : String → ℚ) (l : List String) (m : ℚ) : ℚ :=
  l.foldl (fun m v => max m (f v)) m

/-- Maximum similarity of a term over the known vocabulary, starting
from the source's initial running maximum 0. -/
def maxSim (sim : Str → Str → ℚ) (term : Str) : ℚ :=
  scMax (fun v => sim (lowerL term) v.toList) knownMedicalTerms 0

def mkAbbrevPatterns : List (String × String) :=
  [("htn", "hypertension"), ("dm", "diabetes mellitus"),
   ("dm2", "diabetes mellitus type 2"), ("mi", "myocardial infarction"),
   ("copd", "chronic obstructive pulmonary disease"), ("bp", "blood pressure"),
   ("hr", "heart rate"), ("rr", "respiratory rate")]

def mkPhrases : List (String × String) :=
  [("high bp", "hypertension"), ("high blood pressure", "hypertension"),
   ("heart attack", "myocardial infarction"), ("sugar diabetes", "diabetes mellitus")]

/-- Local standardization passes of the knowledge agent: word-boundary
abbreviation expansion (confidence 0.85 per firing) then substring
phrase replacement (confidence 0.8 per firing), from confidence 0.5. -/
def mkLocal (text : Str) : Str × ℚ :=
  let r := mkAbbrevPatterns.foldl
    (fun (p : Str × ℚ) e =>
      if wbSearch e.1.toList p.1 then (wbRepl e.1.toList e.2.toList p.1, 17/20) else p)
    (text, 1/2)
  mkPhrases.foldl
    (fun (p : Str × ℚ) e =>
      if containsL e.1.toList (lowerL p.1) then (replCI e.1.toList e.2.toList p.1, 4/5) else p)
    r

def mkUpperWords : List String := ["BP", "HR", "RR", "COPD", "MI", "HTN", "DM"]

/-- Formatting cleanup of the knowledge agent. -/
def cleanFormattingMK (text : Str) : Str :=
  let t := stripL (collapseWS text)
  let t := fixPunct ',' t
  let t := fixPunct '.' t
  let ws := wordsL t
  if ws.length = 0 then t
  else joinSp (ws.map (fun w =>
    if upperL w ∈ mkUpperWords.map String.toList then upperL w else lowerL w))

/-- Local confidence accumulated before the similarity stage for a
given input. -/
def mkLocalConf (t : Option Str) : ℚ :=
  match t with
  | none => 1
  | some s => (mkLocal (lowerL (stripL s))).2

/-- The standardize-term operation: cache short-circuit, local passes,
spell check only below confidence 0.7, formatting, and the cache
write-back returned explicitly. -/
def standardizeTerm (cget : Str → Option (Str × ℚ)) (sim : Str → Str → ℚ)
    (term : Option Str) : (Option Str × ℚ) × Option (Str × Str × ℚ) :=
  match term with
  | none => ((none, 0), none)
  | some s =>
    if stripL s = [] then ((some s, 0), none)
    else
      let text := lowerL (stripL s)
      match cget text with
      | some c => ((some c.1, c.2), none)
      | none =>
        let lc := mkLocal text
        let lc :=
          if lc.2 < 7/10 then
            let sc := spellCheckMedicalTerm sim text
            if lc.2 < sc.2 then (sc.1, sc.2) else lc
          else lc
        let std := cleanFormattingMK lc.1
        ((some std, lc.2), some (text, std, lc.2))

/-!
Column processing and the processor manager, translated from
src/column_processors/base_processor.py (process column) and
src/column_processors/processor_manager.py.
-/

/-- Per-processor counters. -/
structure ProcStats where
  totalProcessed : Nat
  successful : Nat
  failed : Nat
  transformCounts : List (String × Nat)
deriving DecidableEq

def initStats : ProcStats := ⟨0, 0, 0, []⟩

def bumpCount : List (String × Nat) → String → List (String × Nat)
  | [], k => [(k, 1)]
  | (a, n) :: rest, k =>
    if a = k then (a, n + 1) :: rest else (a, n) :: bumpCount rest k

/-- Result of one clean call as consumed by process column. -/
structure COut (α : Type) where
  cleaned : α
  confidence : ℚ
  transformations : List String

/-- The process-column loop: clean each value in order; on success
record the cleaned value and update the counters (success means
confidence above 0.7); on an exception keep the original value and
count a failure, continuing with the remaining rows. -/
def processColumn {ι α : Type} (clean : α → Except Unit (COut α)) :
    List (ι × α) → ProcStats → List (ι × α) × ProcStats
  | [], st => ([], st)
  | r :: rest, st =>
    match clean r.2 with
    | .ok res =>
      let st1 : ProcStats :=
        { totalProcessed := st.totalProcessed + 1
          successful := st.successful + (if 7/10 < res.confidence then 1 else 0)
          failed := st.failed
          transformCounts := res.transformations.foldl bumpCount st.transformCounts }
      let pr := processColumn clean rest st1
      ((r.1, res.cleaned) :: pr.1, pr.2)
    | .error _ =>
      let pr := processColumn clean rest
        { st with failed := st.failed + 1 }
      ((r.1, r.2) :: pr.1, pr.2)

/-- Column names with a registered processor, in registry order. -/
def mappingNames : List String :=
  ["test", "lab_testname_col", "biomarker", "norm_biomarker",
   "provisionaldiagnosis", "finaldiagnosis", "chief_remark",
   "vital_remark", "clinical_note"]

def processingPriority : List (String × Nat) :=
  [("test", 1), ("biomarker", 1), ("provisionaldiagnosis", 2),
   ("finaldiagnosis", 2), ("chief_remark", 3), ("clinical_note", 3),
   ("norm_biomarker", 4), ("lab_testname_col", 4), ("vital_remark", 5)]

/-- Priority of a column name, defaulting to 999. -/
def prioOf (c : String) : Nat :=
  match processingPriority.find? (fun p => p.1 == c) with
  | some p => p.2
  | none => 999

/-- Shared filter of analyze and process: keep requested names present
in the dataset and carrying a registered processor. -/
def filterCols (dfCols req : List String) : List String :=
  req.filter (fun c => dfCols.contains c && mappingNames.contains c)

/-- Stable insertion by priority: an element is placed before the first
existing element of greater-or-equal priority, so earlier input ties
stay first.  Extensionally this is the stable key sort of the source. -/
def insertCol (x : String) : List String → List String
  | [] => [x]
  | y :: ys => if prioOf x ≤ prioOf y then x :: y :: ys else y :: insertCol x ys

def sortCols : List String → List String
  | [] => []
  | x :: xs => insertCol x (sortCols xs)

/-- The order in which process-columns handles the surviving columns. -/
def processOrder (dfCols req : List String) : List String :=
  sortCols (filterCols dfCols req)

/-- The set of columns analyze-dataset reports on, in request order. -/
def analyzeCols (dfCols req : List String) : List String :=
  filterCols dfCols req

/-- Aggregated manager statistics. -/
structure AggStats where
  totalValuesProcessed : Nat
  totalSuccessful : Nat
  totalFailed : Nat
  overallSuccessRate : ℚ
deriving DecidableEq

def aggregateStats (sts : List ProcStats) : AggStats :=
  let tp := (sts.map ProcStats.totalProcessed).sum
  let ts := (sts.map ProcStats.successful).sum
  let tf := (sts.map ProcStats.failed).sum
  ⟨tp, ts, tf, if 0 < tp then (ts : ℚ) / (tp : ℚ) else 0⟩

/-- Confidence formula as the specification words it: base from the
transformation count, plus one tenth per high-confidence tag, minus one
fifth per low-confidence tag, clamped to the interval from 0.1 to 1. -/
def specConfidence (o c : Option Str) (tags : List String) : ℚ :=
  match o, c with
  | none, none => 1
  | o, c =>
    if o = c then 1
    else
      max (1/10) (min 1 (max (1/2) (1 - (tags.length : ℚ) / 10)
        + ((tags.countP (fun t => decide (t ∈ highTransforms))) : ℚ) * (1/10)
        - ((tags.countP (fun t => decide (t ∈ lowTransforms))) : ℚ) * (1/5)))

/-- A sequence of process-column calls against one processor's
counters: each call brings its own clean behaviour and rows. -/
def runCalls {ι α : Type} (calls : List ((α → Except Unit (COut α)) × List (ι × α)))
    (st : ProcStats) : ProcStats :=
  calls.foldl (fun st c => (processColumn c.1 c.2 st).2) st

/-- Count of the rows of one call whose clean completed without an
exception. -/
def okCount {ι α : Type} (c : (α → Except Unit (COut α)) × List (ι × α)) : Nat :=
  c.2.countP (fun r => match c.1 r.2 with | .ok _ => true | .error _ => false)

/-- Count of the rows of one call whose clean raised. -/
def errCount {ι α : Type} (c : (α → Except Unit (COut α)) × List (ι × α)) : Nat :=
  c.2.countP (fun r => match c.1 r.2 with | .ok _ => false | .error _ => true)

/-!
Theorems.  Each claim of the specification is settled by one theorem
below; shared helper lemmas come first.
-/

theorem high_not_med {t : String} (h : t ∈ highTransforms) : t ∉ mediumTransforms := by
  simp only [highTransforms, List.mem_cons, List.not_mem_nil, or_false] at h
  rcases h with rfl | rfl | rfl <;> decide

theorem high_not_low {t : String} (h : t ∈ highTransforms) : t ∉ lowTransforms := by
  simp only [highTransforms, List.mem_cons, List.not_mem_nil, or_false] at h
  rcases h with rfl | rfl | rfl <;> decide

theorem med_not_low {t : String} (h : t ∈ mediumTransforms) : t ∉ lowTransforms := by
  simp only [mediumTransforms, List.mem_cons, List.not_mem_nil, or_false] at h
  rcases h with rfl | rfl <;> decide

theorem confStep_foldl : ∀ (tags : List String) (a : ℚ),
    tags.foldl confStep a =
      a + ((tags.countP (fun t => decide (t ∈ highTransforms))) : ℚ) * (1/10)
        - ((tags.countP (fun t => decide (t ∈ lowTransforms))) : ℚ) * (1/5) := by
  intro tags
  induction tags with
  | nil => intro a; simp
  | cons t rest ih =>
    intro a
    simp only [List.foldl_cons, List.countP_cons, ih]
    by_cases h1 : t ∈ highTransforms
    · have h3 := high_not_low h1
      simp only [confStep, h1, if_pos, h3, decide_eq_true_eq, if_true, decide_eq_false_iff_not]
      simp [h1, h3]
      ring
    · by_cases h2 : t ∈ mediumTransforms
      · have h3 := med_not_low h2
        simp only [confStep, h1, if_neg, h2, if_pos]
        simp [h1, h2, h3]
      · by_cases h3 : t ∈ lowTransforms
        · simp only [confStep]
          rw [if_neg h1, if_neg h2, if_pos h3]
          simp [h1, h3]
          ring
        · simp only [confStep]
          rw [if_neg h1, if_neg h2, if_neg h3]
          simp [h1, h3]

/-- C1: the confidence scorer returns 1 when original and cleaned are
both null, 1 when original equals cleaned, and otherwise the base
max(0.5, 1 - 0.1 n) adjusted by +0.1 per high-confidence tag and -0.2
per low-confidence tag, clamped to the interval from 0.1 to 1. -/
theorem C1_confidence_scorer : ∀ (o c : Option Str) (tags : List String),
    calculateConfidence o c tags = specConfidence o c tags := by
  intro o c tags
  have hadj : confAdj tags =
      ((tags.countP (fun t => decide (t ∈ highTransforms))) : ℚ) * (1/10)
        - ((tags.countP (fun t => decide (t ∈ lowTransforms))) : ℚ) * (1/5) := by
    simpa using confStep_foldl tags 0
  cases o with
  | none =>
    cases c with
    | none => rfl
    | some c' =>
      simp only [calculateConfidence, specConfidence, hadj]
      ring_nf
  | some o' =>
    cases c with
    | none =>
      simp only [calculateConfidence, specConfidence, hadj]
      ring_nf
    | some c' =>
      simp only [calculateConfidence, specConfidence, hadj]
      ring_nf

theorem clamp_bounds (tags : List String) :
    1/10 ≤ max (1/10) (min 1 (max (1/2) (1 - (tags.length : ℚ) / 10) + confAdj tags)) ∧
      max (1/10) (min 1 (max (1/2) (1 - (tags.length : ℚ) / 10) + confAdj tags)) ≤ 1 :=
  ⟨le_max_left _ _, max_le (by norm_num) (min_le_left _ _)⟩

theorem calc_bounds (o c : Option Str) (tags : List String) :
    1/10 ≤ calculateConfidence o c tags ∧ calculateConfidence o c tags ≤ 1 := by
  cases o with
  | none =>
    cases c with
    | none =>
      simp only [calculateConfidence]
      exact ⟨by norm_num, le_refl 1⟩
    | some c' =>
      simp only [calculateConfidence]
      rw [if_neg (fun hh => Option.noConfusion hh)]
      exact clamp_bounds tags
  | some o' =>
    cases c with
    | none =>
      simp only [calculateConfidence]
      rw [if_neg (fun hh => Option.noConfusion hh)]
      exact clamp_bounds tags
    | some c' =>
      simp only [calculateConfidence]
      split_ifs with h
      · exact ⟨by norm_num, le_refl 1⟩
      · exact clamp_bounds tags

theorem pass_tags_cases {α : Type} (f : PSt → α → PSt) (tag : String)
    (h : ∀ st p, (f st p).tags = st.tags ∨ (f st p).tags = st.tags ++ [tag]) :
    ∀ (l : List α) (st : PSt) (t : String), t ∈ (l.foldl f st).tags → t ∈ st.tags ∨ t = tag := by
  intro l
  induction l with
  | nil => intro st t ht; exact Or.inl ht
  | cons p rest ih =>
    intro st t ht
    simp only [List.foldl_cons] at ht
    rcases ih (f st p) t ht with h1 | h1
    · rcases h st p with h2 | h2
      · rw [h2] at h1; exact Or.inl h1
      · rw [h2] at h1
        rcases List.mem_append.1 h1 with h3 | h3
        · exact Or.inl h3
        · exact Or.inr (List.mem_singleton.1 h3)
    · exact Or.inr h1

theorem tabCI_tags (tag : String) (ipre : Option String) (tbl : List (String × String))
    (st : PSt) (t : String) (ht : t ∈ (tabCI tag ipre tbl st).tags) :
    t ∈ st.tags ∨ t = tag := by
  simp only [tabCI] at ht
  refine pass_tags_cases _ tag ?_ tbl st t ht
  intro st' p
  dsimp only
  split
  · right; rfl
  · left; rfl

theorem tabStale_tags (tag : String) (ipre : Option String) (tbl : List (String × String))
    (st : PSt) (t : String) (ht : t ∈ (tabStale tag ipre tbl st).tags) :
    t ∈ st.tags ∨ t = tag := by
  simp only [tabStale] at ht
  refine pass_tags_cases _ tag ?_ tbl st t ht
  intro st' p
  dsimp only
  split
  · right; rfl
  · left; rfl

theorem tabWB_tags (tag : String) (ipre : Option String) (tbl : List (String × String))
    (st : PSt) (t : String) (ht : t ∈ (tabWB tag ipre tbl st).tags) :
    t ∈ st.tags ∨ t = tag := by
  simp only [tabWB] at ht
  refine pass_tags_cases _ tag ?_ tbl st t ht
  intro st' p
  dsimp only
  split
  · right; rfl
  · left; rfl

theorem stNorm_tags (st : PSt) (t : String) (ht : t ∈ (stNorm st).tags) :
    t ∈ st.tags ∨ t = "normalize_text" := by
  simp only [stNorm] at ht
  split at ht
  · rcases List.mem_append.1 ht with h | h
    · exact Or.inl h
    · exact Or.inr (List.mem_singleton.1 h)
  · exact Or.inl ht

theorem diagPunct_tags (orig0 : Str) (st : PSt) (t : String)
    (ht : t ∈ (diagPunctStage orig0 st).tags) :
    t ∈ st.tags ∨ t = "fix_punctuation" := by
  simp only [diagPunctStage] at ht
  split at ht
  · rcases List.mem_append.1 ht with h | h
    · exact Or.inl h
    · exact Or.inr (List.mem_singleton.1 h)
  · exact Or.inl ht

theorem diagPipe_tags (cv0 : Str) (t : String) (ht : t ∈ (diagPipe cv0).tags) :
    t = "normalize_text" ∨ t = "fix_medical_spelling" ∨ t = "expand_clinical_abbreviation" ∨
      t = "standardize_medical_condition" ∨ t = "standardize_severity" ∨
      t = "fix_punctuation" := by
  simp only [diagPipe] at ht
  rcases diagPunct_tags _ _ _ ht with ht | rfl
  · rcases tabWB_tags _ _ _ _ _ ht with ht | rfl
    · rcases tabWB_tags _ _ _ _ _ ht with ht | rfl
      · rcases tabWB_tags _ _ _ _ _ ht with ht | rfl
        · rcases tabCI_tags _ _ _ _ _ ht with ht | rfl
          · rcases stNorm_tags _ _ ht with ht | rfl
            · exact absurd ht (List.not_mem_nil t)
            · exact Or.inl rfl
          · exact Or.inr (Or.inl rfl)
        · exact Or.inr (Or.inr (Or.inl rfl))
      · exact Or.inr (Or.inr (Or.inr (Or.inl rfl)))
    · exact Or.inr (Or.inr (Or.inr (Or.inr (Or.inl rfl))))
  · exact Or.inr (Or.inr (Or.inr (Or.inr (Or.inr rfl))))

theorem diag_tags_not_low (cv0 : Str) : ∀ t ∈ (diagPipe cv0).tags, t ∉ lowTransforms := by
  intro t ht
  rcases diagPipe_tags cv0 t ht with rfl | rfl | rfl | rfl | rfl | rfl <;> decide

theorem confStep_le (a : ℚ) (t : String) (h : t ∉ lowTransforms) : a ≤ confStep a t := by
  simp only [confStep]
  by_cases h1 : t ∈ highTransforms
  · rw [if_pos h1]; linarith
  · rw [if_neg h1]
    by_cases h2 : t ∈ mediumTransforms
    · rw [if_pos h2]
    · rw [if_neg h2, if_neg h]

theorem foldl_confStep_le : ∀ (tags : List String) (a : ℚ),
    (∀ t ∈ tags, t ∉ lowTransforms) → a ≤ tags.foldl confStep a := by
  intro tags
  induction tags with
  | nil => intro a _; exact le_refl a
  | cons t rest ih =>
    intro a h
    simp only [List.foldl_cons]
    exact le_trans (confStep_le a t (h t (List.mem_cons_self t rest)))
      (ih _ (fun u hu => h u (List.mem_cons_of_mem _ hu)))

theorem clamp_half (tags : List String) (h : ∀ t ∈ tags, t ∉ lowTransforms) :
    (1/2 : ℚ) ≤ max (1/10) (min 1 (max (1/2) (1 - (tags.length : ℚ) / 10) + confAdj tags)) := by
  have ha : (0:ℚ) ≤ confAdj tags := by
    simpa [confAdj] using foldl_confStep_le tags 0 h
  have hb : (1/2 : ℚ) ≤ max (1/2) (1 - (tags.length : ℚ) / 10) := le_max_left _ _
  have h2 : (1/2 : ℚ) ≤ max (1/2) (1 - (tags.length : ℚ) / 10) + confAdj tags := by linarith
  exact le_trans (le_min (by norm_num) h2) (le_max_right _ _)

theorem calc_one_or_half (o c : Option Str) (tags : List String)
    (h : ∀ t ∈ tags, t ∉ lowTransforms) :
    calculateConfidence o c tags = 1 ∨ (1/2 : ℚ) ≤ calculateConfidence o c tags := by
  cases o with
  | none =>
    cases c with
    | none => exact Or.inl rfl
    | some c' =>
      simp only [calculateConfidence]
      rw [if_neg (fun hh => Option.noConfusion hh)]
      exact Or.inr (clamp_half tags h)
  | some o' =>
    cases c with
    | none =>
      simp only [calculateConfidence]
      rw [if_neg (fun hh => Option.noConfusion hh)]
      exact Or.inr (clamp_half tags h)
    | some c' =>
      simp only [calculateConfidence]
      split_ifs with heq
      · exact Or.inl rfl
      · exact Or.inr (clamp_half tags h)

/-- C2: every processor variant returns a confidence in the interval
from 0.1 to 1 for every non-null non-empty input, and returns
confidence 1, the unchanged input and an empty transformation list for
every null or empty input. -/
theorem C2_confidence_bounds : ∀ (pv : ProcVariant) (v : Option Str),
    ((v = none ∨ v = some []) →
      (cleanValueOf pv v).confidence = 1 ∧ (cleanValueOf pv v).cleaned = v ∧
        (cleanValueOf pv v).transformations = []) ∧
    (v ≠ none → v ≠ some [] →
      1/10 ≤ (cleanValueOf pv v).confidence ∧ (cleanValueOf pv v).confidence ≤ 1) := by
  intro pv v
  constructor
  · rintro (rfl | rfl) <;> cases pv <;> exact ⟨rfl, rfl, rfl⟩
  · intro hn he
    obtain ⟨s, rfl⟩ : ∃ s, v = some s := by
      cases v with
      | none => exact absurd rfl hn
      | some s => exact ⟨s, rfl⟩
    have hs : s ≠ [] := fun h => he (by rw [h])
    cases pv with
    | test =>
      simp only [cleanValueOf, testCleanValue]
      rw [if_neg hs]
      exact calc_bounds _ _ _
    | biomarker =>
      simp only [cleanValueOf, biomarkerCleanValue]
      rw [if_neg hs]
      exact calc_bounds _ _ _
    | diagnosis =>
      simp only [cleanValueOf, diagnosisCleanValue]
      rw [if_neg hs]
      by_cases hp : lowerL (stripL s) ∈ diagPlaceholders.map String.toList
      · rw [if_pos hp]
        exact ⟨by norm_num, by norm_num⟩
      · rw [if_neg hp]
        dsimp only
        by_cases hl : (stripL (diagPipe (stripL s)).cv).length < 5
        · rw [if_pos hl]
          have hnl : ∀ t ∈ (diagPipe (stripL s)).tags, t ∉ lowTransforms :=
            diag_tags_not_low (stripL s)
          have hub := (calc_bounds (some s) (some (stripL (diagPipe (stripL s)).cv))
            (diagPipe (stripL s)).tags).2
          rcases calc_one_or_half (some s) (some (stripL (diagPipe (stripL s)).cv))
              (diagPipe (stripL s)).tags hnl with h1 | h1
          · rw [h1]; norm_num
          · constructor
            · linarith
            · linarith
        · rw [if_neg hl]
          exact calc_bounds _ _ _

theorem C2_confidence_bounds_witness :
    ((cleanValueOf ProcVariant.diagnosis none).confidence = 1 ∧
      (cleanValueOf ProcVariant.diagnosis none).cleaned = none ∧
      (cleanValueOf ProcVariant.diagnosis none).transformations = []) ∧
    (1/10 ≤ (cleanValueOf ProcVariant.test (some ("cbc".toList))).confidence ∧
      (cleanValueOf ProcVariant.test (some ("cbc".toList))).confidence ≤ 1) :=
  ⟨(C2_confidence_bounds ProcVariant.diagnosis none).1 (Or.inl rfl),
   (C2_confidence_bounds ProcVariant.test (some ("cbc".toList))).2
     (by decide) (by decide)⟩

/-- C3 counterexample: on the input with a double space, the formatting
pass fires at confidence 0.95 and the later typo pass fires at 0.9, and
the running confidence drops to 0.9, strictly below the maximum of the
fired passes, refuting the claim that a later lower-confidence pass
never decreases the running confidence. -/
theorem C3_counterexample :
    (fixFormattingIssues ("diabetis  mellitus".toList)).confidence = 19/20 ∧
    (fixMedicalTypos (fixFormattingIssues ("diabetis  mellitus".toList)).cleaned).confidence
      = 9/10 ∧
    (pvAfter2 ("diabetis  mellitus".toList)).2 = 9/10 ∧
    (pvAfter2 ("diabetis  mellitus".toList)).2 <
      (fixFormattingIssues ("diabetis  mellitus".toList)).confidence := by
  refine ⟨rfl, rfl, by with_unfolding_all rfl, ?_⟩
  have h1 : (pvAfter2 ("diabetis  mellitus".toList)).2 = 9/10 := by
    with_unfolding_all rfl
  have h2 : (fixFormattingIssues ("diabetis  mellitus".toList)).confidence = 19/20 := rfl
  rw [h1, h2]
  norm_num

/-- C3 amended: in the per-value pipeline the running confidence after
the typo pass is the minimum of the formatting and typo pass
confidences, so a later lower-confidence pass does decrease it; only
the standardization pass follows the upward-only rule, and the external
pass never fires once the running confidence is at least 0.7. -/
theorem C3_amended : ∀ (med : Str → Str × ℚ) (v : Str),
    (pvAfter2 v).2 = min (fixFormattingIssues v).confidence
        (fixMedicalTypos (fixFormattingIssues v).cleaned).confidence ∧
    (pvAfter3 med v).2 = max (pvAfter2 v).2 (med (pvAfter2 v).1).2 ∧
    (∀ apiF, 7/10 ≤ (pvAfter3 med v).2 →
      pvApi apiF (pvAfter3 med v) = ((pvAfter3 med v).1, (pvAfter3 med v).2, false)) := by
  intro med v
  refine ⟨?_, ?_, ?_⟩
  · simp only [pvAfter2]
    split_ifs with h
    · exact (min_eq_right (le_of_lt h)).symm
    · exact (min_eq_left (not_lt.1 h)).symm
  · simp only [pvAfter3]
    split_ifs with h
    · exact (max_eq_right (le_of_lt h)).symm
    · exact (max_eq_left (not_lt.1 h)).symm
  · intro apiF hge
    simp only [pvApi]
    rw [if_neg (not_lt.2 hge)]

theorem C3_amended_witness :
    pvApi (some (fun _ => some ("x".toList))) (pvAfter3 (fun s => (s, 1/2)) ("htn".toList)) =
      ((pvAfter3 (fun s => (s, 1/2)) ("htn".toList)).1,
       (pvAfter3 (fun s => (s, 1/2)) ("htn".toList)).2, false) :=
  (C3_amended (fun s => (s, 1/2)) ("htn".toList)).2.2
    (some (fun _ => some ("x".toList)))
    (by
      have hx : (pvAfter3 (fun s => (s, 1/2)) ("htn".toList)).2 = 1 := by
        with_unfolding_all rfl
      rw [hx]; norm_num)

/-- C4 counterexample: the spelling pattern cardio occurs in the input
cardiovascular only inside a longer token (no word-boundary match),
yet the diagnosis spelling pass replaces it, corrupting the token. -/
theorem C4_counterexample :
    containsL ("cardio".toList) (lowerL ("cardiovascular".toList)) = true ∧
    wbSearch ("cardio".toList) ("cardiovascular".toList) = false ∧
    (diagnosisCleanValue (some ("cardiovascular".toList))).cleaned
      = some ("cardiacvascular".toList) := by
  decide

theorem tabWB_noop (tag : String) (ipre : Option String) :
    ∀ (tbl : List (String × String)) (st : PSt),
    (∀ p ∈ tbl, wbSearch p.1.toList st.cv = false) → tabWB tag ipre tbl st = st := by
  intro tbl
  induction tbl with
  | nil => intro st _; rfl
  | cons p rest ih =>
    intro st h
    have hp := h p (List.mem_cons_self p rest)
    simp only [tabWB, List.foldl_cons, hp, Bool.false_eq_true, if_false]
    exact ih st (fun q hq => h q (List.mem_cons_of_mem p hq))

/-- C4 amended: the clinical-abbreviation, condition-mapping and
severity tables of the diagnosis processor fire only on
case-insensitive word-boundary matches, so without such a match they
leave the value, tags and issues unchanged; the spelling-correction
tables and the biomarker unit list instead match plain case-insensitive
substrings and do replace patterns embedded inside longer tokens. -/
theorem C4_amended : ∀ st : PSt,
    ((∀ p ∈ diagAbbrev, wbSearch p.1.toList st.cv = false) →
      tabWB "expand_clinical_abbreviation" (some "clinical_abbreviation_") diagAbbrev st = st) ∧
    ((∀ p ∈ diagCond, wbSearch p.1.toList st.cv = false) →
      tabWB "standardize_medical_condition" (some "medical_condition_standardized_")
        diagCond st = st) ∧
    ((∀ p ∈ diagSev, wbSearch p.1.toList st.cv = false) →
      tabWB "standardize_severity" none diagSev st = st) :=
  fun st => ⟨tabWB_noop _ _ _ st, tabWB_noop _ _ _ st, tabWB_noop _ _ _ st⟩

theorem C4_amended_witness :
    tabWB "standardize_medical_condition" (some "medical_condition_standardized_") diagCond
        ⟨"xyz".toList, [], []⟩ = ⟨"xyz".toList, [], []⟩ ∧
    tabWB "expand_clinical_abbreviation" (some "clinical_abbreviation_") diagAbbrev
        ⟨"xyz".toList, [], []⟩ = ⟨"xyz".toList, [], []⟩ ∧
    tabWB "standardize_severity" none diagSev ⟨"xyz".toList, [], []⟩
      = ⟨"xyz".toList, [], []⟩ :=
  ⟨(C4_amended _).2.1 (by decide), (C4_amended _).1 (by decide),
   (C4_amended _).2.2 (by decide)⟩

/-- C5 counterexample: cleaning is not idempotent: the diagnosis value
ckd cleans to a value that a second application changes again, and the
second application's confidence is not 1. -/
theorem C5_counterexample :
    (diagnosisCleanValue ((diagnosisCleanValue (some ("ckd".toList))).cleaned)).cleaned ≠
      (diagnosisCleanValue (some ("ckd".toList))).cleaned ∧
    (diagnosisCleanValue ((diagnosisCleanValue (some ("ckd".toList))).cleaned)).confidence
      ≠ 1 := by
  constructor
  · decide
  · have h : (diagnosisCleanValue
        ((diagnosisCleanValue (some ("ckd".toList))).cleaned)).confidence = 7/10 := by
      with_unfolding_all rfl
    rw [h]; norm_num

/-- C5 amended: cleaning is idempotent only at fixed points of the
pipeline: for the test processor, when the string pipeline leaves a
non-empty value unchanged, clean returns it unchanged with confidence 1
and a second application returns the same value; in general a second
application can change the value again and need not report
confidence 1. -/
theorem C5_amended : ∀ s : Str, s ≠ [] → stripL (testPipe s).cv = s →
    (testCleanValue (some s)).cleaned = some s ∧
    (testCleanValue (some s)).confidence = 1 ∧
    (testCleanValue ((testCleanValue (some s)).cleaned)).cleaned
      = (testCleanValue (some s)).cleaned := by
  intro s hne hfix
  have hc : (testCleanValue (some s)).cleaned = some s := by
    simp only [testCleanValue]
    rw [if_neg hne]
    exact congrArg some hfix
  refine ⟨hc, ?_, ?_⟩
  · simp only [testCleanValue]
    rw [if_neg hne]
    show calculateConfidence (some s) (some (stripL (testPipe s).cv)) (testPipe s).tags = 1
    rw [hfix]
    simp [calculateConfidence]
  · rw [hc]
    exact hc

theorem C5_amended_witness :
    (testCleanValue (some ("Complete Blood Count".toList))).cleaned
        = some ("Complete Blood Count".toList) ∧
    (testCleanValue (some ("Complete Blood Count".toList))).confidence = 1 ∧
    (testCleanValue ((testCleanValue (some ("Complete Blood Count".toList))).cleaned)).cleaned
      = (testCleanValue (some ("Complete Blood Count".toList))).cleaned :=
  C5_amended _ (by decide) (by decide)

/-- C6: process-column returns one output row per input row with the
same index labels in order; each position holds the cleaned value, or
the original value where clean raised; each exception adds one to the
failure counter and processing of the remaining rows continues. -/
theorem C6_process_column {ι α : Type} (clean : α → Except Unit (COut α)) :
    ∀ (rows : List (ι × α)) (st : ProcStats),
    (processColumn clean rows st).1.length = rows.length ∧
    (processColumn clean rows st).1.map Prod.fst = rows.map Prod.fst ∧
    (∀ k : Nat, ((processColumn clean rows st).1)[k]? =
      (rows[k]?).map (fun r =>
        (r.1, match clean r.2 with | .ok res => res.cleaned | .error _ => r.2))) ∧
    (processColumn clean rows st).2.failed =
      st.failed + rows.countP
        (fun r => match clean r.2 with | .ok _ => false | .error _ => true) := by
  intro rows
  induction rows with
  | nil =>
    intro st
    refine ⟨rfl, rfl, ?_, by simp [processColumn]⟩
    intro k
    simp [processColumn]
  | cons r rest ih =>
    intro st
    cases hcl : clean r.2 with
    | ok res =>
      obtain ⟨ih1, ih2, ih3, ih4⟩ := ih
        { totalProcessed := st.totalProcessed + 1
          successful := st.successful + (if 7/10 < res.confidence then 1 else 0)
          failed := st.failed
          transformCounts := res.transformations.foldl bumpCount st.transformCounts }
      simp only [processColumn, hcl]
      refine ⟨?_, ?_, ?_, ?_⟩
      · simp [ih1]
      · simp [ih2]
      · intro k
        cases k with
        | zero => simp [hcl]
        | succ k =>
          simp only [List.getElem?_cons_succ]
          exact ih3 k
      · simp only [List.countP_cons, hcl]
        simp only [ih4]
        simp
    | error e =>
      obtain ⟨ih1, ih2, ih3, ih4⟩ := ih { st with failed := st.failed + 1 }
      simp only [processColumn, hcl]
      refine ⟨?_, ?_, ?_, ?_⟩
      · simp [ih1]
      · simp [ih2]
      · intro k
        cases k with
        | zero => simp [hcl]
        | succ k =>
          simp only [List.getElem?_cons_succ]
          exact ih3 k
      · simp only [List.countP_cons, hcl]
        simp only [ih4]
        simp
        omega

theorem processColumn_counters {ι α : Type} (clean : α → Except Unit (COut α)) :
    ∀ (rows : List (ι × α)) (st : ProcStats),
    (processColumn clean rows st).2.totalProcessed =
      st.totalProcessed + rows.countP
        (fun r => match clean r.2 with | .ok _ => true | .error _ => false) ∧
    (processColumn clean rows st).2.failed =
      st.failed + rows.countP
        (fun r => match clean r.2 with | .ok _ => false | .error _ => true) ∧
    (processColumn clean rows st).2.successful ≤
      st.successful + rows.countP
        (fun r => match clean r.2 with | .ok _ => true | .error _ => false) := by
  intro rows
  induction rows with
  | nil => intro st; exact ⟨by simp [processColumn], by simp [processColumn],
      by simp [processColumn]⟩
  | cons r rest ih =>
    intro st
    cases hcl : clean r.2 with
    | ok res =>
      simp only [processColumn, hcl]
      obtain ⟨ih1, ih2, ih3⟩ := ih
        { totalProcessed := st.totalProcessed + 1
          successful := st.successful + (if 7/10 < res.confidence then 1 else 0)
          failed := st.failed
          transformCounts := res.transformations.foldl bumpCount st.transformCounts }
      refine ⟨?_, ?_, ?_⟩
      · simp only [ih1, List.countP_cons, hcl]
        simp
        omega
      · simp only [ih2, List.countP_cons, hcl]
        simp
      · refine le_trans ih3 ?_
        simp only [List.countP_cons, hcl]
        simp
        split_ifs <;> omega
    | error e =>
      simp only [processColumn, hcl]
      obtain ⟨ih1, ih2, ih3⟩ := ih { st with failed := st.failed + 1 }
      refine ⟨?_, ?_, ?_⟩
      · simp only [ih1, List.countP_cons, hcl]
        simp
      · simp only [ih2, List.countP_cons, hcl]
        simp
        omega
      · refine le_trans ih3 ?_
        simp only [List.countP_cons, hcl]
        simp

theorem runCalls_counters {ι α : Type} :
    ∀ (calls : List ((α → Except Unit (COut α)) × List (ι × α))) (st : ProcStats),
    (runCalls calls st).totalProcessed = st.totalProcessed + (calls.map okCount).sum ∧
    (runCalls calls st).failed = st.failed + (calls.map errCount).sum ∧
    (st.successful ≤ st.totalProcessed →
      (runCalls calls st).successful ≤ (runCalls calls st).totalProcessed) := by
  intro calls
  induction calls with
  | nil => intro st; exact ⟨by simp [runCalls], by simp [runCalls], fun h => h⟩
  | cons c rest ih =>
    intro st
    obtain ⟨pc1, pc2, pc3⟩ := processColumn_counters c.1 c.2 st
    obtain ⟨ih1, ih2, ih3⟩ := ih (processColumn c.1 c.2 st).2
    have hrun : runCalls (c :: rest) st = runCalls rest (processColumn c.1 c.2 st).2 := rfl
    refine ⟨?_, ?_, ?_⟩
    · rw [hrun, ih1, pc1]
      simp [okCount]
      omega
    · rw [hrun, ih2, pc2]
      simp [errCount]
      omega
    · intro h
      rw [hrun]
      refine ih3 ?_
      calc (processColumn c.1 c.2 st).2.successful
          ≤ st.successful + c.2.countP
              (fun r => match c.1 r.2 with | .ok _ => true | .error _ => false) := pc3
        _ ≤ st.totalProcessed + c.2.countP
              (fun r => match c.1 r.2 with | .ok _ => true | .error _ => false) := by omega
        _ = (processColumn c.1 c.2 st).2.totalProcessed := pc1.symm

/-- C10: a processor's total-processed counter counts exactly the
values cleaned without an exception across any sequence of
process-column calls, the failed counter counts exactly the raising
values, successful never exceeds total, and the manager's aggregate
success rate is total successful over total processed, or 0 when
nothing was processed, so failed values are outside the denominator. -/
theorem C10_stats_invariants (ι α : Type) :
    (∀ (calls : List ((α → Except Unit (COut α)) × List (ι × α))),
      (runCalls calls initStats).totalProcessed = (calls.map okCount).sum ∧
      (runCalls calls initStats).failed = (calls.map errCount).sum ∧
      (runCalls calls initStats).successful ≤ (runCalls calls initStats).totalProcessed) ∧
    (∀ sts : List ProcStats,
      (aggregateStats sts).overallSuccessRate =
        if (sts.map ProcStats.totalProcessed).sum = 0 then 0
        else ((sts.map ProcStats.successful).sum : ℚ) /
          ((sts.map ProcStats.totalProcessed).sum : ℚ)) := by
  constructor
  · intro calls
    obtain ⟨h1, h2, h3⟩ := runCalls_counters (ι := ι) calls initStats
    refine ⟨by simpa [initStats] using h1, by simpa [initStats] using h2, h3 (by simp [initStats])⟩
  · intro sts
    simp only [aggregateStats]
    by_cases h : (sts.map ProcStats.totalProcessed).sum = 0
    · rw [if_pos h, if_neg (by omega)]
    · rw [if_neg h, if_pos (by omega)]

theorem C10_stats_invariants_witness :
    (runCalls ([] : List ((Nat → Except Unit (COut Nat)) × List (Nat × Nat)))
        initStats).successful ≤
      (runCalls ([] : List ((Nat → Except Unit (COut Nat)) × List (Nat × Nat)))
        initStats).totalProcessed :=
  (((C10_stats_invariants Nat Nat).1 []).2.2)

theorem mem_insertCol (x : String) : ∀ (l : List String) (a : String),
    a ∈ insertCol x l ↔ a = x ∨ a ∈ l := by
  intro l
  induction l with
  | nil => intro a; simp [insertCol]
  | cons y ys ih =>
    intro a
    simp only [insertCol]
    split_ifs with h
    · simp [List.mem_cons]
    · simp only [List.mem_cons, ih]
      tauto

theorem mem_sortCols : ∀ (l : List String) (a : String), a ∈ sortCols l ↔ a ∈ l := by
  intro l
  induction l with
  | nil => intro a; exact Iff.rfl
  | cons x xs ih =>
    intro a
    simp only [sortCols, mem_insertCol, ih, List.mem_cons]

theorem pairwise_insertCol (x : String) : ∀ (l : List String),
    List.Pairwise (fun a b => prioOf a ≤ prioOf b) l →
    List.Pairwise (fun a b => prioOf a ≤ prioOf b) (insertCol x l) := by
  intro l
  induction l with
  | nil => intro _; simp [insertCol]
  | cons y ys ih =>
    intro hp
    rw [List.pairwise_cons] at hp
    obtain ⟨hy, hys⟩ := hp
    simp only [insertCol]
    split_ifs with h
    · refine List.Pairwise.cons ?_ (List.Pairwise.cons hy hys)
      intro b hb
      rcases List.mem_cons.1 hb with rfl | hb
      · exact h
      · exact le_trans h (hy b hb)
    · refine List.Pairwise.cons ?_ (ih hys)
      intro b hb
      rcases (mem_insertCol x ys b).1 hb with rfl | hb
      · exact Nat.le_of_not_le h
      · exact hy b hb

theorem sortCols_pairwise : ∀ l : List String,
    List.Pairwise (fun a b => prioOf a ≤ prioOf b) (sortCols l) := by
  intro l
  induction l with
  | nil => exact List.Pairwise.nil
  | cons x xs ih => exact pairwise_insertCol x _ ih

theorem filter_insertCol (x : String) (p : Nat) : ∀ (l : List String),
    List.Pairwise (fun a b => prioOf a ≤ prioOf b) l →
    (insertCol x l).filter (fun c => prioOf c == p) =
      ((x :: l).filter (fun c => prioOf c == p)) := by
  intro l
  induction l with
  | nil => intro _; rfl
  | cons y ys ih =>
    intro hp
    rw [List.pairwise_cons] at hp
    obtain ⟨hy, hys⟩ := hp
    simp only [insertCol]
    split_ifs with h
    · rfl
    · have hyx : prioOf y < prioOf x := Nat.lt_of_not_le h
      by_cases hx : (prioOf x == p) = true
      · have hxp : prioOf x = p := by simpa using hx
        have hyp : (prioOf y == p) = false := by
          simp only [beq_eq_false_iff_ne, ne_eq]
          omega
        simp only [List.filter_cons, hyp, hx, ih hys]
        simp
      · have hx' : (prioOf x == p) = false := by
          simp only [beq_eq_false_iff_ne, ne_eq]
          intro hc
          exact hx (by simp [hc])
        simp only [List.filter_cons, hx', ih hys]
        simp [hx']

theorem filter_sortCols (p : Nat) : ∀ l : List String,
    (sortCols l).filter (fun c => prioOf c == p) = l.filter (fun c => prioOf c == p) := by
  intro l
  induction l with
  | nil => rfl
  | cons x xs ih =>
    have h1 := filter_insertCol x p (sortCols xs) (sortCols_pairwise xs)
    simp only [sortCols, h1, List.filter_cons]
    rw [ih]

/-- C7: process-columns and analyze-dataset touch exactly the requested
columns present in the dataset with a registered processor; every other
requested name is absent from both results; the processing order is
ascending in the priority table and stable: for each priority the
processed columns of that priority keep their request order. -/
theorem C7_column_filter_priority : ∀ (dfCols req : List String),
    (∀ c, c ∈ processOrder dfCols req ↔ c ∈ req ∧ c ∈ dfCols ∧ c ∈ mappingNames) ∧
    List.Pairwise (fun a b => prioOf a ≤ prioOf b) (processOrder dfCols req) ∧
    (∀ p : Nat, (processOrder dfCols req).filter (fun c => prioOf c == p) =
      (filterCols dfCols req).filter (fun c => prioOf c == p)) ∧
    (∀ c, c ∈ analyzeCols dfCols req ↔ c ∈ req ∧ c ∈ dfCols ∧ c ∈ mappingNames) := by
  intro dfCols req
  have hmemf : ∀ c, c ∈ filterCols dfCols req ↔ c ∈ req ∧ c ∈ dfCols ∧ c ∈ mappingNames := by
    intro c
    simp [filterCols, List.mem_filter]
  refine ⟨?_, sortCols_pairwise _, fun p => filter_sortCols p _, hmemf⟩
  intro c
  rw [processOrder, mem_sortCols]
  exact hmemf c

theorem C7_column_filter_priority_witness :
    List.Pairwise (fun a b => prioOf a ≤ prioOf b)
      (processOrder ["test", "provisionaldiagnosis"]
        ["provisionaldiagnosis", "nope", "test"]) :=
  (C7_column_filter_priority ["test", "provisionaldiagnosis"]
    ["provisionaldiagnosis", "nope", "test"]).2.1

theorem scMax_le_init (f : String → ℚ) : ∀ (l : List String) (m : ℚ), m ≤ scMax f l m := by
  intro l
  induction l with
  | nil => intro m; exact le_refl m
  | cons v rest ih =>
    intro m
    show m ≤ scMax f rest (max m (f v))
    exact le_trans (le_max_left m (f v)) (ih (max m (f v)))

theorem scMax_of_mem (f : String → ℚ) : ∀ (l : List String) (m : ℚ) (v : String),
    v ∈ l → f v ≤ scMax f l m := by
  intro l
  induction l with
  | nil => intro m v hv; exact absurd hv (List.not_mem_nil v)
  | cons u rest ih =>
    intro m v hv
    rcases List.mem_cons.1 hv with rfl | hv
    · show f v ≤ scMax f rest (max m (f v))
      exact le_trans (le_max_right m (f v)) (scMax_le_init f rest _)
    · exact ih _ v hv

theorem scMax_max (f : String → ℚ) : ∀ (l : List String) (a b : ℚ),
    scMax f l (max a b) = max (scMax f l a) b := by
  intro l
  induction l with
  | nil => intro a b; rfl
  | cons v rest ih =>
    intro a b
    show scMax f rest (max (max a b) (f v)) = max (scMax f rest (max a (f v))) b
    rw [sup_right_comm a b (f v)]
    exact ih (max a (f v)) b

theorem scAux_noupd (f : String → ℚ) : ∀ (l : List String) (b : Str) (m : ℚ),
    (∀ v ∈ l, f v ≤ m) → scAux f l (b, m) = (b, m) := by
  intro l
  induction l with
  | nil => intro b m _; rfl
  | cons v rest ih =>
    intro b m h
    have h1 : decide ((b, m).2 < f v) = false :=
      decide_eq_false (not_lt.2 (h v (List.mem_cons_self v rest)))
    simp only [scAux, h1, Bool.false_and, Bool.false_eq_true, if_false]
    exact ih b m (fun u hu => h u (List.mem_cons_of_mem v hu))

theorem scAux_nofire (f : String → ℚ) : ∀ (l : List String) (acc : Str × ℚ),
    (∀ v ∈ l, ¬ ((4:ℚ)/5 < f v)) → scAux f l acc = acc := by
  intro l
  induction l with
  | nil => intro acc _; rfl
  | cons v rest ih =>
    intro acc h
    have h1 : decide ((4:ℚ)/5 < f v) = false :=
      decide_eq_false (h v (List.mem_cons_self v rest))
    simp only [scAux, h1, Bool.and_false, Bool.false_eq_true, if_false]
    exact ih acc (fun u hu => h u (List.mem_cons_of_mem v hu))

theorem scAux_char (f : String → ℚ) : ∀ (l : List String) (b : Str) (m : ℚ) (k : String),
    m < scMax f l m → 4/5 < scMax f l m →
    l.find? (fun v => f v == scMax f l m) = some k →
    scAux f l (b, m) = (k.toList, scMax f l m) := by
  intro l
  induction l with
  | nil =>
    intro b m k hm _ _
    exact absurd hm (lt_irrefl m)
  | cons v rest ih =>
    intro b m k hm h45 hfind
    have hfvle : f v ≤ scMax f (v :: rest) m :=
      scMax_of_mem f (v :: rest) m v (List.mem_cons_self v rest)
    by_cases hv : f v = scMax f (v :: rest) m
    · have hkv : v = k := by
        rw [List.find?_cons_of_pos _ (by simp [hv])] at hfind
        exact Option.some.inj hfind
      subst hkv
      have hmv : m < f v := by rw [hv]; exact hm
      have h45v : (4:ℚ)/5 < f v := by rw [hv]; exact h45
      have hstep : scAux f (v :: rest) (b, m) = scAux f rest (v.toList, f v) := by
        simp only [scAux]
        rw [if_pos (by simp [hmv, h45v])]
      rw [hstep,
        scAux_noupd f rest v.toList (f v)
          (fun u hu => by
            rw [hv]
            exact scMax_of_mem f (v :: rest) m u (List.mem_cons_of_mem v hu)),
        hv]
    · have hlt : f v < scMax f (v :: rest) m := lt_of_le_of_ne hfvle hv
      have hfind' : rest.find? (fun u => f u == scMax f (v :: rest) m) = some k := by
        rwa [List.find?_cons_of_neg _ (by simp [hv])] at hfind
      have hM2 : scMax f (v :: rest) m = max (scMax f rest m) (f v) := by
        show scMax f rest (max m (f v)) = _
        exact scMax_max f rest m (f v)
      by_cases hcond : m < f v ∧ (4:ℚ)/5 < f v
      · have hstep : scAux f (v :: rest) (b, m) = scAux f rest (v.toList, f v) := by
          simp only [scAux]
          rw [if_pos (by simp [hcond.1, hcond.2])]
        have hMv : scMax f (v :: rest) m = scMax f rest (f v) := by
          show scMax f rest (max m (f v)) = _
          rw [max_eq_right (le_of_lt hcond.1)]
        rw [hMv] at hlt h45 hfind'
        rw [hstep, ih v.toList (f v) k hlt h45 hfind', ← hMv]
      · have hstep : scAux f (v :: rest) (b, m) = scAux f rest (b, m) := by
          simp only [scAux]
          rw [if_neg (by simpa [Bool.and_eq_true, decide_eq_true_eq] using hcond)]
        have hfX : f v ≤ scMax f rest m := by
          by_contra hcon
          push_neg at hcon
          have hMeq : scMax f (v :: rest) m = f v := by
            rw [hM2]
            exact max_eq_right (le_of_lt hcon)
          rw [hMeq] at hlt
          exact lt_irrefl _ hlt
        have hMm : scMax f (v :: rest) m = scMax f rest m := by
          rw [hM2]
          exact max_eq_left hfX
        rw [hMm] at hm h45 hfind'
        rw [hstep, ih b m k hm h45 hfind', ← hMm]

/-- C8: the spell check replaces a term only when the best vocabulary
similarity is strictly above 0.8, otherwise returning the term with a
zero score; when the threshold is beaten the result is the earliest
vocabulary entry attaining the maximum similarity, with that maximum;
and the similarity stage cannot influence standardize-term once the
locally accumulated confidence reaches 0.7. -/
theorem C8_similarity_matcher : ∀ (sim : Str → Str → ℚ) (term : Str),
    ((∀ v ∈ knownMedicalTerms, ¬ ((4:ℚ)/5 < sim (lowerL term) v.toList)) →
      spellCheckMedicalTerm sim term = (term, 0)) ∧
    (∀ k : String, 4/5 < maxSim sim term →
      knownMedicalTerms.find?
        (fun v => sim (lowerL term) v.toList == maxSim sim term) = some k →
      spellCheckMedicalTerm sim term = (k.toList, maxSim sim term)) ∧
    (∀ (cget : Str → Option (Str × ℚ)) (sim2 : Str → Str → ℚ) (t : Option Str),
      7/10 ≤ mkLocalConf t →
      standardizeTerm cget sim t = standardizeTerm cget sim2 t) := by
  intro sim term
  refine ⟨?_, ?_, ?_⟩
  · intro h
    exact scAux_nofire _ knownMedicalTerms (term, 0) h
  · intro k h45 hfind
    have h0 : (0:ℚ) < maxSim sim term := lt_trans (by norm_num) h45
    exact scAux_char _ knownMedicalTerms term 0 k h0 h45 hfind
  · intro cget sim2 t hge
    cases t with
    | none => rfl
    | some s =>
      simp only [standardizeTerm]
      by_cases hemp : stripL s = []
      · simp only [if_pos hemp]
      · simp only [if_neg hemp]
        cases hc : cget (lowerL (stripL s)) with
        | some c => simp only [hc]
        | none =>
          simp only [hc]
          have hnl : ¬ ((mkLocal (lowerL (stripL s))).2 < 7/10) := by
            apply not_lt.2
            simpa [mkLocalConf] using hge
          simp only [if_neg hnl]

theorem C8_similarity_matcher_witness :
    spellCheckMedicalTerm (fun _ _ => 1/10) ("astma".toList) = ("astma".toList, 0) ∧
    spellCheckMedicalTerm (fun _ v => if v = "asthma".toList then 9/10 else 1/10)
        ("astma".toList)
      = ("asthma".toList,
          maxSim (fun _ v => if v = "asthma".toList then 9/10 else 1/10) ("astma".toList)) ∧
    standardizeTerm (fun _ => none) (fun _ _ => 1/10) (some ("high bp".toList)) =
      standardizeTerm (fun _ => none) (fun _ _ => 1) (some ("high bp".toList)) :=
  ⟨(C8_similarity_matcher (fun _ _ => 1/10) ("astma".toList)).1
      (by intro v _; with_unfolding_all decide),
   (C8_similarity_matcher (fun _ v => if v = "asthma".toList then 9/10 else 1/10)
      ("astma".toList)).2.1 "asthma"
      (by with_unfolding_all decide) (by with_unfolding_all decide),
   (C8_similarity_matcher (fun _ _ => 1/10) ("astma".toList)).2.2
      (fun _ => none) (fun _ _ => 1) (some ("high bp".toList))
      (by with_unfolding_all decide)⟩

theorem startsL_append (a b u : Str) : startsL (a ++ b) u = true → startsL a u = true := by
  induction a generalizing u with
  | nil => intro _; rfl
  | cons x as ih =>
    intro h
    cases u with
    | nil => exact absurd h (by simp [startsL])
    | cons y us =>
      simp only [List.cons_append, startsL, Bool.and_eq_true] at h ⊢
      exact ⟨h.1, ih us h.2⟩

theorem containsL_of_startsL (p u : Str) : startsL p u = true → containsL p u = true := by
  cases u with
  | nil =>
    intro h
    cases p with
    | nil => rfl
    | cons x xs => exact absurd h (by simp [startsL])
  | cons c rest =>
    intro h
    simp only [containsL, Bool.or_eq_true]
    exact Or.inl h

theorem lookupA_none (tbl : List (String × String)) (u : Str) (h : lookupA tbl u = none) :
    ∀ p ∈ tbl, p.1.toList ≠ u := by
  intro p hp
  simp only [lookupA, Option.map_eq_none'] at h
  have := List.find?_eq_none.1 h p hp
  simpa using this

theorem bioPartialScan_of_find :
    ∀ (tbl : List (String × String)) (u : Str) (k f : String),
    (∀ p ∈ tbl, p.1.toList ≠ u) →
    tbl.find? (fun p => decide (3 ≤ p.1.length) && startsL (p.1.toList ++ [' ']) u)
      = some (k, f) →
    bioPartialScan tbl u = some f := by
  intro tbl
  induction tbl with
  | nil => intro u k f _ hfind; exact absurd hfind (by simp)
  | cons p rest ih =>
    intro u k f hne hfind
    by_cases hp : (decide (3 ≤ p.1.length) && startsL (p.1.toList ++ [' ']) u) = true
    · rw [@List.find?_cons_of_pos _
        (fun q => decide (3 ≤ q.1.length) && startsL (q.1.toList ++ [' ']) u) p rest hp]
        at hfind
      obtain ⟨h3, hsw⟩ : 3 ≤ p.1.length ∧ startsL (p.1.toList ++ [' ']) u = true := by
        simpa using hp
      have hcon : containsL p.1.toList u = true :=
        containsL_of_startsL _ _ (startsL_append _ _ _ hsw)
      have : bioPartialScan (p :: rest) u = some p.2 := by
        simp only [bioPartialScan]
        rw [if_pos (by
          simp only [Bool.and_eq_true, Bool.or_eq_true, beq_iff_eq, decide_eq_true_eq]
          exact ⟨⟨hcon, h3⟩, Or.inr hsw⟩)]
      rw [this]
      have hpk : p = (k, f) := Option.some.inj hfind
      rw [hpk]
    · rw [@List.find?_cons_of_neg _
        (fun q => decide (3 ≤ q.1.length) && startsL (q.1.toList ++ [' ']) u) p rest hp]
        at hfind
      have hstep : bioPartialScan (p :: rest) u = bioPartialScan rest u := by
        simp only [bioPartialScan]
        rw [if_neg]
        intro hcond
        simp only [Bool.and_eq_true, Bool.or_eq_true, beq_iff_eq, decide_eq_true_eq] at hcond
        obtain ⟨⟨hcon2, h32⟩, hor2⟩ := hcond
        rcases hor2 with heq | hsw2
        · exact hne p (List.mem_cons_self p rest) heq.symm
        · exact hp (by
            simp only [Bool.and_eq_true, decide_eq_true_eq]
            exact ⟨h32, hsw2⟩)
      rw [hstep]
      exact ih u k f (fun q hq => hne q (List.mem_cons_of_mem p hq)) hfind

/-- C9: for a non-null biomarker value whose normalized lowercase form
is not itself a mapping key but begins with a mapping key of length at
least three followed by a space, clean returns exactly the canonical
name mapped from the first such key in table order, discarding the
trailing text. -/
theorem C9_biomarker_partial_match : ∀ (s : Str) (k f : String), s ≠ [] →
    lookupA bioMappings (stripL (lowerL (bioStep123 (stripL s)).cv)) = none →
    bioMappings.find? (fun p => decide (3 ≤ p.1.length) &&
        startsL (p.1.toList ++ [' ']) (stripL (lowerL (bioStep123 (stripL s)).cv)))
      = some (k, f) →
    (biomarkerCleanValue (some s)).cleaned = some f.toList := by
  intro s k f hne hlk hfind
  have hmem : (k, f) ∈ bioMappings := List.mem_of_find?_eq_some hfind
  have hvals : ∀ p ∈ bioMappings,
      islowerL p.2.toList = false ∧ stripL p.2.toList = p.2.toList := by decide
  obtain ⟨hlow, hstr⟩ := hvals (k, f) hmem
  have hlow' : islowerL f.data = false := hlow
  have hscan := bioPartialScan_of_find bioMappings _ k f (lookupA_none _ _ hlk) hfind
  have h4 : bioStep4 (bioStep123 (stripL s)) =
      { cv := f.toList
        tags := (bioStep123 (stripL s)).tags ++ ["standardize_biomarker_partial"]
        iss := (bioStep123 (stripL s)).iss ++ ["expanded_abbreviation_partial".toList] } := by
    simp only [bioStep4, hlk, hscan]
  have h5 : bioStep5 (bioStep4 (bioStep123 (stripL s))) =
      bioStep4 (bioStep123 (stripL s)) := by
    rw [h4]
    simp only [bioStep5]
    rw [if_neg]
    simp [hlow']
  simp only [biomarkerCleanValue]
  rw [if_neg hne]
  show some (stripL (bioStep5 (bioStep4 (bioStep123 (stripL s)))).cv) = some f.toList
  rw [h5, h4, hstr]

theorem C9_biomarker_partial_match_witness :
    (biomarkerCleanValue (some ("hgb level".toList))).cleaned
      = some ("Hemoglobin".toList) :=
  C9_biomarker_partial_match ("hgb level".toList) "hgb" "Hemoglobin"
    (by decide) (by decide) (by decide)
